import Mathlib

/-!
A verification development for the taskmaster repository.

The repository's "Unified AI Dispatch & Async Operation Layer" (role
resolution, fallback dispatch, retry with backoff, result caching, async
operation tracking, output silencing) is described by the specification but
its modules are not present in the source snapshot; those components are
modelled here directly from the specification's words, each such definition
carrying a doc comment starting `Modelled from the spec:`.

The parts that are present in the source snapshot are embedded from it:
`executeCommand` (Go, CLIExecutor), `findProjectRoot`
(src/utils/path-utils.js) and `executeUpdateSubtaskCommand` (Go,
update-subtask form).
-/

namespace Taskmaster

/-- Modelled from the spec: the provider-call error taxonomy consumed by the
Retry Policy (section 4.3): RateLimited, TransientNetwork, AuthError,
ValidationError, ProviderUnavailable, Unknown. -/
inductive ErrorKind where
  | RateLimited
  | TransientNetwork
  | AuthError
  | ValidationError
  | ProviderUnavailable
  | Unknown
deriving DecidableEq, Repr

/-- Modelled from the spec: the decision returned by `shouldRetry`. -/
structure RetryDecision where
  retry : Bool
  delayMs : Nat
deriving DecidableEq, Repr

/-- Modelled from the spec: `RateLimited` and `TransientNetwork` are the two
retryable kinds; all other kinds are non-retryable within a candidate. -/
def isRetryable : ErrorKind → Bool
  | .RateLimited => true
  | .TransientNetwork => true
  | _ => false

/-- Modelled from the spec: the fixed per-candidate retry cap: a retryable
error is "retried up to 3 times" (section 8) — "retryable up to a fixed cap
(3 attempts)" (section 4.3) — before the dispatcher falls through to the next
candidate. -/
def maxRetries : Nat := 3

/-- Modelled from the spec: backoff delay = min(baseDelay * 2^(attemptNumber-1),
maxDelay). -/
def backoffDelay (baseDelay maxDelay attemptNumber : Nat) : Nat :=
  min (baseDelay * 2 ^ (attemptNumber - 1)) maxDelay

/-- Modelled from the spec: `shouldRetry(errorKind, attemptNumber)` decides
whether the candidate is retried after its `attemptNumber`-th attempt failed
with `errorKind`, and with what backoff delay. -/
def shouldRetry (baseDelay maxDelay : Nat) (k : ErrorKind) (attemptNumber : Nat) :
    RetryDecision :=
  if isRetryable k && decide (attemptNumber ≤ maxRetries) then
    { retry := true, delayMs := backoffDelay baseDelay maxDelay attemptNumber }
  else
    { retry := false, delayMs := 0 }

/-- Modelled from the spec: a provider response (raw text; schema parsing is the
caller's concern). -/
structure Response where
  text : String
deriving DecidableEq, Repr

/-- Modelled from the spec: the result of running one candidate's attempt loop:
the final outcome, the number of the last attempt performed, and the backoff
sleeps performed between attempts, in order. -/
structure CandResult where
  outcome : Except ErrorKind Response
  attempts : Nat
  delays : List Nat
deriving Repr

/-- Prepend a backoff sleep to a candidate result's sleep log. -/
def CandResult.withDelay (d : Nat) (r : CandResult) : CandResult :=
  { r with delays := d :: r.delays }

/-- Modelled from the spec: the in-candidate attempt loop of the Call
Dispatcher (section 4.4c): invoke the provider capability, and on a classified
error consult the Retry Policy; retry after sleeping the policy's delay, or
give up. `outcome n` is the provider capability's result on the candidate's
`n`-th attempt. Attempts are numbered from 1. -/
def runCandidate (base maxD : Nat) (outcome : Nat → Except ErrorKind Response)
    (n : Nat) : CandResult :=
  match outcome n with
  | .ok r => { outcome := .ok r, attempts := n, delays := [] }
  | .error k =>
    if h : (shouldRetry base maxD k n).retry then
      CandResult.withDelay (shouldRetry base maxD k n).delayMs
        (runCandidate base maxD outcome (n + 1))
    else
      { outcome := .error k, attempts := n, delays := [] }
termination_by maxRetries + 2 - n
decreasing_by
  have hle : n ≤ maxRetries := by
    unfold shouldRetry at h
    split at h
    · next hc =>
      simp only [Bool.and_eq_true, decide_eq_true_eq] at hc
      exact hc.2
    · simp at h
  omega

/-- Modelled from the spec: the enumerated roles (section 3). -/
inductive Role where
  | main
  | research
  | fallback
deriving DecidableEq, Repr

/-- Modelled from the spec: ProviderConfig = providerId, modelId, maxTokens,
temperature (temperature modelled as a rational, its value is irrelevant to
dispatch logic). -/
structure ProviderConfig where
  providerId : String
  modelId : String
  maxTokens : Nat
  temperature : Rat
deriving DecidableEq, Repr

/-- Modelled from the spec: FallbackChain candidates are deduplicated by
providerId + modelId. -/
def sameCandidate (a b : ProviderConfig) : Bool :=
  a.providerId == b.providerId && a.modelId == b.modelId

/-- Modelled from the spec: configuration-class failures of chain resolution
(section 4.2). -/
inductive ConfigError where
  | UnknownRole
  | NoProviderConfigured
deriving DecidableEq, Repr

/-- Modelled from the spec: the process-wide read-only configuration mapping
roles to ProviderConfig plus the globally configured fallback configs. -/
structure RoleConfig where
  roles : Role → Option ProviderConfig
  globalFallback : List ProviderConfig

/-- Modelled from the spec: `resolveChain(role)`: look up the role's own
ProviderConfig, then append the globally configured fallback ProviderConfig(s)
that are not identical to an already-included candidate (dedupe by
providerId+modelId); fail with UnknownRole if the role is not registered,
NoProviderConfigured if the chain would be empty. -/
def resolveChain (cfg : RoleConfig) (r : Role) :
    Except ConfigError (List ProviderConfig) :=
  match cfg.roles r with
  | none => .error .UnknownRole
  | some pc =>
    let chain := cfg.globalFallback.foldl
      (fun acc c => if acc.any (sameCandidate c) then acc else acc ++ [c]) [pc]
    if chain.isEmpty then .error .NoProviderConfigured else .ok chain

/-- Modelled from the spec: first non-empty match wins when looking a provider
key up in one environment mapping. -/
def lookupEnv (env : List (String × String)) (k : String) : Option String :=
  match env.find? (fun p => p.fst == k) with
  | some p => if p.snd == "" then none else some p.snd
  | none => none

/-- Modelled from the spec: `resolveKey(providerId, contextEnv)`: the
context-scoped environment mapping is checked first, the process-wide
environment is the fallback source; fails with MissingCredential. `none` is
the MissingCredential outcome. -/
def resolveKey (providerId : String)
    (contextEnv processEnv : List (String × String)) : Option String :=
  match lookupEnv contextEnv providerId with
  | some k => some k
  | none => lookupEnv processEnv providerId

/-- Modelled from the spec: the error kind recorded in an AttemptRecord: a
candidate is either skipped for a missing credential or failed its provider
calls with a classified error. -/
inductive AttemptError where
  | missingCredential
  | callFailed (k : ErrorKind)
deriving DecidableEq, Repr

/-- Modelled from the spec: AttemptRecord = providerId, modelId, attemptNumber,
errorKind, message, elapsedMs (section 3). `elapsedMs` carries no information
in this model (wall-clock time is outside the embedding). -/
structure AttemptRecord where
  providerId : String
  modelId : String
  attemptNumber : Nat
  errorKind : AttemptError
  message : String
  elapsedMs : Nat
deriving DecidableEq, Repr

/-- Modelled from the spec: a human-readable message for a recorded error. -/
def attemptMessage : AttemptError → String
  | .missingCredential => "missing credential"
  | .callFailed .RateLimited => "rate limited"
  | .callFailed .TransientNetwork => "transient network error"
  | .callFailed .AuthError => "authentication error"
  | .callFailed .ValidationError => "validation error"
  | .callFailed .ProviderUnavailable => "provider unavailable"
  | .callFailed .Unknown => "unknown error"

/-- Modelled from the spec: build the AttemptRecord appended for candidate `c`
after `n` attempts failed with `e`. -/
def mkRecord (c : ProviderConfig) (e : AttemptError) (n : Nat) : AttemptRecord :=
  { providerId := c.providerId, modelId := c.modelId, attemptNumber := n,
    errorKind := e, message := attemptMessage e, elapsedMs := 0 }

/-- Modelled from the spec: a dispatch outcome: success carries the winning
Response together with the attempt log of the candidates that failed before it
(diagnostics); total exhaustion surfaces AggregatedFailure carrying the full
ordered AttemptRecord list; configuration errors fail immediately. -/
inductive DispatchResult where
  | success (resp : Response) (attempts : List AttemptRecord)
  | failure (attempts : List AttemptRecord)
  | configError (e : ConfigError)
deriving Repr

/-- Modelled from the spec: the provider capability: given the candidate's
config, a resolved key, and an attempt number, return a Response or a
classified error (the attempt number stands for the environment's varying
behavior across repeated attempts). -/
def ProviderCall : Type := ProviderConfig → String → Nat → Except ErrorKind Response

/-- Modelled from the spec: the candidate loop of the Call Dispatcher
(section 4.4, step 2): for each candidate in chain order, resolve a credential
(on MissingCredential append a record and continue), run the in-candidate
attempt loop, return the Response on success, append a record and continue on
exhaustion; when all candidates are exhausted, fail with the full log. -/
def dispatchGo (base maxD : Nat) (contextEnv processEnv : List (String × String))
    (call : ProviderCall) :
    List ProviderConfig → List AttemptRecord → DispatchResult
  | [], log => .failure log
  | c :: rest, log =>
    match resolveKey c.providerId contextEnv processEnv with
    | none =>
      dispatchGo base maxD contextEnv processEnv call rest
        (log ++ [mkRecord c .missingCredential 1])
    | some key =>
      let r := runCandidate base maxD (call c key) 1
      match r.outcome with
      | .ok resp => .success resp log
      | .error k =>
        dispatchGo base maxD contextEnv processEnv call rest
          (log ++ [mkRecord c (.callFailed k) r.attempts])

/-- Modelled from the spec: `dispatch(role, request, contextEnv)`: resolve the
FallbackChain, failing immediately on a configuration error, then try the
candidates in chain order. -/
def dispatch (cfg : RoleConfig) (base maxD : Nat)
    (contextEnv processEnv : List (String × String)) (call : ProviderCall)
    (r : Role) : DispatchResult :=
  match resolveChain cfg r with
  | .error e => .configError e
  | .ok chain => dispatchGo base maxD contextEnv processEnv call chain []

/-- Modelled from the spec: a candidate fails when its credential is missing or
its in-candidate attempt loop ends in a classified error. -/
def candidateFails (base maxD : Nat) (contextEnv processEnv : List (String × String))
    (call : ProviderCall) (c : ProviderConfig) : Bool :=
  match resolveKey c.providerId contextEnv processEnv with
  | none => true
  | some key =>
    match (runCandidate base maxD (call c key) 1).outcome with
    | .ok _ => false
    | .error _ => true

/-- Modelled from the spec: the AttemptRecord a failing candidate contributes
to the dispatch log. -/
def failRecord (base maxD : Nat) (contextEnv processEnv : List (String × String))
    (call : ProviderCall) (c : ProviderConfig) : AttemptRecord :=
  match resolveKey c.providerId contextEnv processEnv with
  | none => mkRecord c .missingCredential 1
  | some key =>
    let r := runCandidate base maxD (call c key) 1
    match r.outcome with
    | .ok _ => mkRecord c (.callFailed .Unknown) r.attempts
    | .error k => mkRecord c (.callFailed k) r.attempts

/-- Embedded from the Go source (CLIExecutor): the result of a CLI command
execution, fields Success, Message, Output, Error. -/
structure CLIResult where
  Success : Bool := false
  Message : String := ""
  Output : String := ""
  Error : String := ""
deriving DecidableEq, Repr

/-- Embedded from the Go source (CLIExecutor.executeCommand): the spawned
process is modelled by its observable outcome: the combined stdout+stderr
`output` and `procErr`, the error string when the command failed (`none` when
it completed without error). The function builds the CLIResult exactly as the
Go code does. -/
def executeCommand (output : String) (procErr : Option String) : CLIResult :=
  let result : CLIResult := { Output := output }
  match procErr with
  | some e =>
    { result with Success := false, Error := e,
                  Message := "Command failed: " ++ e }
  | none =>
    { result with Success := true, Message := "Command executed successfully" }

/-- Embedded from src/utils/path-utils.js: the project markers checked by
`findProjectRoot`. The two imported constants TASKMASTER_TASKS_FILE and
LEGACY_TASKS_FILE come from a module missing from the snapshot; their values
are taken from the comments in path-utils.js itself
(".taskmaster/tasks/tasks.json" and "tasks/tasks.json"). -/
def projectMarkers : List String :=
  [".taskmaster", ".taskmaster/tasks/tasks.json", "tasks.json",
   "tasks/tasks.json", ".git", ".svn", "package.json", "yarn.lock",
   "package-lock.json", "pnpm-lock.yaml"]

/-- Embedded from src/utils/path-utils.js: a directory is modelled as its path
components listed leaf-first; `[]` is the filesystem root, `List.tail` is
`path.dirname`. A directory contains a marker when the joined path
marker-inside-directory exists in the (abstract) filesystem `fsExists`. -/
def hasMarker (fsExists : String → List String → Bool) (dir : List String) : Bool :=
  projectMarkers.any (fun m => fsExists m dir)

/-- Embedded from src/utils/path-utils.js, findProjectRoot: starting from the
resolved start directory, walk up parent by parent while the current directory
is not the filesystem root; return the first directory containing a project
marker, or null (`none`) when the walk reaches the root without a match. The
root itself is never examined because the loop condition is
`currentDir !== rootDir`. -/
def findProjectRoot (fsExists : String → List String → Bool) :
    List String → Option (List String)
  | [] => none
  | d :: rest =>
    if hasMarker fsExists (d :: rest) then some (d :: rest)
    else findProjectRoot fsExists rest

/-- Embedded from the Go source (update_subtask_form.go): Go's
`strings.Split(s, ".")` for the one-character separator, over the characters
of the identifier. -/
def splitDot : List Char → List (List Char)
  | [] => [[]]
  | c :: rest =>
    match splitDot rest with
    | [] => [[]]
    | h :: t => if c = '.' then [] :: h :: t else (c :: h) :: t

/-- Embedded from the Go source (update_subtask_form.go): Go's
`strings.Join(parts, ".")`. -/
def joinDot : List (List Char) → List Char
  | [] => []
  | [x] => x
  | x :: y :: t => x ++ '.' :: joinDot (y :: t)

/-- Embedded from the Go source (update_subtask_form.go,
executeUpdateSubtaskCommand): split the SubtaskID on dots; with fewer than two
parts, return a failed CLIResult without calling the CLI; otherwise call
UpdateSubtask with the first part as the task ID and the remaining parts
rejoined with a dot as the subtask ID. The second component records the
(taskID, subtaskID) CLI invocations performed. -/
def executeUpdateSubtaskCommand (updateSubtask : List Char → List Char → CLIResult)
    (subtaskID : List Char) : CLIResult × List (List Char × List Char) :=
  let parts := splitDot subtaskID
  if parts.length < 2 then
    ({ Success := false,
       Error := "Invalid subtask ID format. Expected format like \x271.2\x27" }, [])
  else
    let taskID := parts.headD []
    let subID := joinDot parts.tail
    (updateSubtask taskID subID, [(taskID, subID)])

/-- Modelled from the spec: an Operation's state
(Pending -> Running -> Completed | Failed | Cancelled). -/
inductive OpState where
  | Pending
  | Running
  | Completed
  | Failed
  | Cancelled
deriving DecidableEq, Repr

/-- Modelled from the spec: Completed, Failed and Cancelled are the terminal
states. -/
def isTerminal : OpState → Bool
  | .Completed => true
  | .Failed => true
  | .Cancelled => true
  | _ => false

/-- Modelled from the spec: the state-machine edges of section 4.6:
Pending -> Running and Running -> each terminal state. -/
def allowedEdge : OpState → OpState → Bool
  | .Pending, .Running => true
  | .Running, .Completed => true
  | .Running, .Failed => true
  | .Running, .Cancelled => true
  | _, _ => false

/-- Modelled from the spec: an Operation record: id, state, progress percent,
result or error, cooperative cancellation flag. -/
structure Operation where
  operationId : String
  state : OpState
  progressPercent : Nat
  result : Option String
  error : Option String
  cancelRequested : Bool
deriving DecidableEq, Repr

/-- Modelled from the spec: the Async Operation Manager's registry of
Operations, keyed by operation id. -/
structure OpManager where
  ops : List Operation

/-- Look an Operation up by id in the registry. -/
def OpManager.lookup (m : OpManager) (id : String) : Option Operation :=
  m.ops.find? (fun op => op.operationId == id)

/-- Update the Operation with the given id in place. -/
def OpManager.update (m : OpManager) (id : String) (f : Operation → Operation) :
    OpManager :=
  { ops := m.ops.map (fun op => if op.operationId == id then f op else op) }

/-- Modelled from the spec: percent is clamped to [0,100]; the report may carry
any integer. -/
def clampPercent (p : Int) : Nat :=
  (max 0 (min p 100)).toNat

/-- Modelled from the spec: the calls a caller or a running workFn can make on
the manager after submission: reportProgress, cancel, the scheduler picking the
operation up, and the workFn finishing (completed, failed, or returning early
as cancelled). -/
inductive MgrAction where
  | report (id : String) (percent : Int)
  | cancel (id : String)
  | start (id : String)
  | complete (id : String) (res : String)
  | fail (id : String) (err : String)
  | finishCancelled (id : String)

/-- Modelled from the spec: the per-Operation effect of
`reportProgress(operationId, percent)`: no-op if the operation is already
terminal; otherwise clamp percent to [0,100] and move the state to Running on
a first call that finds it still Pending. -/
def reportFn (percent : Int) (op : Operation) : Operation :=
  if isTerminal op.state then op
  else { op with state := .Running, progressPercent := clampPercent percent }

/-- Modelled from the spec: `reportProgress(operationId, percent)`. -/
def reportProgress (m : OpManager) (id : String) (percent : Int) : OpManager :=
  m.update id (reportFn percent)

/-- Modelled from the spec: the per-Operation effect of `cancel(operationId)`:
set the cooperative cancellation flag; never transition the state itself. -/
def cancelFn (op : Operation) : Operation := { op with cancelRequested := true }

/-- Modelled from the spec: `cancel(operationId)`. -/
def cancelOp (m : OpManager) (id : String) : OpManager := m.update id cancelFn

/-- Modelled from the spec: the scheduler picking a Pending operation up moves
it to Running. -/
def startFn (op : Operation) : Operation :=
  if op.state == .Pending then { op with state := .Running } else op

/-- Modelled from the spec: the scheduler picks the operation up. -/
def startOp (m : OpManager) (id : String) : OpManager := m.update id startFn

/-- Modelled from the spec: a Running operation reaches a terminal state
exactly once; a workFn outcome on an operation that is not Running is
ignored. -/
def finishFn (s : OpState) (f : Operation → Operation) (op : Operation) :
    Operation :=
  if op.state == .Running then f { op with state := s } else op

/-- Modelled from the spec: record the workFn's outcome. -/
def finishOp (m : OpManager) (id : String) (s : OpState)
    (f : Operation → Operation) : OpManager :=
  m.update id (finishFn s f)

/-- Modelled from the spec: fill in the result on completion. -/
def setResult (res : String) (op : Operation) : Operation :=
  { op with result := some res }

/-- Modelled from the spec: capture the error on failure. -/
def setError (err : String) (op : Operation) : Operation :=
  { op with error := some err }

/-- Modelled from the spec: apply one manager call. -/
def applyAction (m : OpManager) : MgrAction → OpManager
  | .report id p => reportProgress m id p
  | .cancel id => cancelOp m id
  | .start id => startOp m id
  | .complete id res => finishOp m id .Completed (setResult res)
  | .fail id err => finishOp m id .Failed (setError err)
  | .finishCancelled id => finishOp m id .Cancelled (fun op => op)

/-- Modelled from the spec: apply a sequence of manager calls in order. -/
def applyActions (m : OpManager) (as : List MgrAction) : OpManager :=
  as.foldl applyAction m

/-- Modelled from the spec: the Output Silencer's scoped brackets, as the
little language of what runs inside a dispatch: an observable console write, a
thrown exception, sequencing, and a `withSilence` bracket around a body. -/
inductive SilProg where
  | write
  | throwE
  | seq (p q : SilProg)
  | silence (p : SilProg)

/-- Modelled from the spec: run a program against the process-wide
reference-counted suppression state. The counter is incremented on entering a
`withSilence` bracket and decremented on leaving it on every exit path
(success or exception). Returns (completed normally?, counter after, the
suppression flag observed at each console write, in order); a write is
suppressed exactly when the reference count is positive. -/
def runSil : SilProg → Nat → Bool × Nat × List Bool
  | .write, n => (true, n, [decide (0 < n)])
  | .throwE, n => (false, n, [])
  | .seq p q, n =>
    match runSil p n with
    | (true, n', ws) =>
      match runSil q n' with
      | (ok, n'', ws') => (ok, n'', ws ++ ws')
    | (false, n', ws) => (false, n', ws)
  | .silence p, n =>
    match runSil p (n + 1) with
    | (ok, n', ws) => (ok, n' - 1, ws)

/-- Modelled from the spec: the events unrelated concurrent dispatches can
interleave on the shared suppression counter: a silencer entering, a silencer
exiting, and a console write. -/
inductive SilEvent where
  | enter
  | exitB
  | write

/-- Modelled from the spec: run an arbitrary interleaving of silencer events
against the reference count, recording the suppression flag observed at each
write. -/
def runSilEvents : Nat → List SilEvent → Nat × List Bool
  | n, [] => (n, [])
  | n, .enter :: t => runSilEvents (n + 1) t
  | n, .exitB :: t => runSilEvents (n - 1) t
  | n, .write :: t =>
    match runSilEvents n t with
    | (m, ws) => (m, decide (0 < n) :: ws)

/-- Modelled from the spec: the argument values of a read-only operation: JSON
primitives, arrays, and objects given as constructed field lists (whose
construction order must not matter to the fingerprint). -/
inductive ArgValue where
  | null
  | bool (b : Bool)
  | num (n : Int)
  | str (s : String)
  | arr (items : List ArgValue)
  | obj (fields : List (String × ArgValue))

/-- Modelled from the spec: object fields are put in a stable order by sorting
on the key. -/
def keyLE (p q : String × ArgValue) : Prop := p.1 ≤ q.1

instance : DecidableRel keyLE := fun p q => inferInstanceAs (Decidable (p.1 ≤ q.1))

instance : IsTotal (String × ArgValue) keyLE := ⟨fun p q => le_total p.1 q.1⟩

instance : IsTrans (String × ArgValue) keyLE := ⟨fun _ _ _ h h' => le_trans h h'⟩

/-- Strict key order on object fields; antisymmetric vacuously since two
fields cannot be strictly ordered both ways. -/
def keyLT (p q : String × ArgValue) : Prop := p.1 < q.1

instance : IsAntisymm (String × ArgValue) keyLT :=
  ⟨fun _ _ h h' => absurd h' (lt_asymm h)⟩

/-- Modelled from the spec: sort an object's fields into the stable key
order. -/
def sortFields (fs : List (String × ArgValue)) : List (String × ArgValue) :=
  List.insertionSort keyLE fs

mutual

/-- Modelled from the spec: canonicalize an argument value: recursively sort
every object's fields by key; primitives and array order are untouched. -/
def canonArg : ArgValue → ArgValue
  | .null => .null
  | .bool b => .bool b
  | .num n => .num n
  | .str s => .str s
  | .arr xs => .arr (canonList xs)
  | .obj fs => .obj (sortFields (canonFields fs))

/-- Canonicalize each element of an array. -/
def canonList : List ArgValue → List ArgValue
  | [] => []
  | x :: xs => canonArg x :: canonList xs

/-- Canonicalize each field value of an object. -/
def canonFields : List (String × ArgValue) → List (String × ArgValue)
  | [] => []
  | (k, v) :: fs => (k, canonArg v) :: canonFields fs

end

mutual

/-- Modelled from the spec: serialize a canonical argument value to the stable
fingerprint string. -/
def serArg : ArgValue → String
  | .null => "null"
  | .bool b => if b then "true" else "false"
  | .num n => "n:" ++ toString n
  | .str s => "s:" ++ s
  | .arr xs => "[" ++ serList xs ++ "]"
  | .obj fs => "o[" ++ serFields fs ++ "]"

/-- Serialize array elements. -/
def serList : List ArgValue → String
  | [] => ""
  | x :: xs => serArg x ++ "," ++ serList xs

/-- Serialize object fields. -/
def serFields : List (String × ArgValue) → String
  | [] => ""
  | (k, v) :: fs => k ++ ":" ++ serArg v ++ ";" ++ serFields fs

end

/-- Modelled from the spec: the order-independent argument fingerprint: the
serialization of the canonicalized value. -/
def fingerprint (args : ArgValue) : String := serArg (canonArg args)

mutual

/-- Modelled from the spec: two argument values are equal up to key ordering:
equal primitives, elementwise-related arrays, and objects whose (duplicate
free) field lists agree up to reordering, with values again related. -/
inductive KeyPermEq : ArgValue → ArgValue → Prop where
  | null : KeyPermEq .null .null
  | bool (b : Bool) : KeyPermEq (.bool b) (.bool b)
  | num (n : Int) : KeyPermEq (.num n) (.num n)
  | str (s : String) : KeyPermEq (.str s) (.str s)
  | arr {xs ys : List ArgValue} : KeyPermEqList xs ys →
      KeyPermEq (.arr xs) (.arr ys)
  | obj {fs hs gs : List (String × ArgValue)} : (fs.map Prod.fst).Nodup →
      KeyPermEqFields fs hs → hs.Perm gs → KeyPermEq (.obj fs) (.obj gs)

/-- Elementwise `KeyPermEq` on arrays. -/
inductive KeyPermEqList : List ArgValue → List ArgValue → Prop where
  | nil : KeyPermEqList [] []
  | cons {x y : ArgValue} {xs ys : List ArgValue} : KeyPermEq x y →
      KeyPermEqList xs ys → KeyPermEqList (x :: xs) (y :: ys)

/-- Fieldwise `KeyPermEq` on object field lists with matching keys. -/
inductive KeyPermEqFields :
    List (String × ArgValue) → List (String × ArgValue) → Prop where
  | nil : KeyPermEqFields [] []
  | cons {k : String} {v w : ArgValue} {fs gs : List (String × ArgValue)} :
      KeyPermEq v w → KeyPermEqFields fs gs →
      KeyPermEqFields ((k, v) :: fs) ((k, w) :: gs)

end

/-- Modelled from the spec: CacheEntry = key, value, hit counter (insertedAt is
outside the embedding). -/
structure CacheEntry (α : Type) where
  key : String × String
  value : α
  hitCount : Nat

/-- Modelled from the spec: the bounded in-process Result Cache with LRU
eviction and aggregate hit/miss stats; entries are kept most-recently-used
first. -/
structure ResultCache (α : Type) where
  capacity : Nat
  entries : List (CacheEntry α)
  hits : Nat
  misses : Nat

/-- Modelled from the spec: `getOrExecute(operationName, args, compute)`: key
the request by operation name plus argument fingerprint; on hit return the
cached value with fromCache = true, bump the counters and refresh recency; on
miss invoke compute, cache a successful result (evicting the least recently
used entry past capacity) and return fromCache = false; a failed compute is
never cached. Returns (result, fromCache, updated cache). -/
def getOrExecute {α : Type} (c : ResultCache α) (operationName : String)
    (args : ArgValue) (compute : Unit → Except String α) :
    Except String α × Bool × ResultCache α :=
  let key := (operationName, fingerprint args)
  match c.entries.find? (fun e => e.key == key) with
  | some e =>
    ( .ok e.value, true,
      { c with
          entries := { e with hitCount := e.hitCount + 1 } ::
            c.entries.filter (fun e2 => !(e2.key == key)),
          hits := c.hits + 1 } )
  | none =>
    match compute () with
    | .ok v =>
      ( .ok v, false,
        { c with
            entries := ({ key := key, value := v, hitCount := 0 } ::
              c.entries).take c.capacity,
            misses := c.misses + 1 } )
    | .error err => (.error err, false, { c with misses := c.misses + 1 })

/-- A concrete provider configuration used in concrete scenarios. -/
def pcA : ProviderConfig :=
  { providerId := "provA", modelId := "m1", maxTokens := 100, temperature := 0 }

/-- A second concrete provider configuration (the global fallback). -/
def pcB : ProviderConfig :=
  { providerId := "provB", modelId := "m2", maxTokens := 100, temperature := 0 }

/-- A concrete role configuration: every role maps to provider A, with provider
B as the global fallback. -/
def cfgW : RoleConfig := { roles := fun _ => some pcA, globalFallback := [pcB] }

/-- A concrete provider capability: provider A always fails with AuthError,
everything else succeeds. -/
def callW : ProviderCall := fun c _ _ =>
  if c.providerId == "provA" then .error .AuthError else .ok { text := "ok" }

/-- A concrete context environment carrying keys for both providers. -/
def envW : List (String × String) := [("provA", "ka"), ("provB", "kb")]

/-- A concrete argument object a = constructed in the order a, b. -/
def argA : ArgValue := .obj [("a", .num 1), ("b", .num 2)]

/-- The same logical argument object constructed in the order b, a. -/
def argB : ArgValue := .obj [("b", .num 2), ("a", .num 1)]

/-- A concrete empty result cache. -/
def cacheW : ResultCache Nat := { capacity := 8, entries := [], hits := 0, misses := 0 }

/-- A concrete Operation already in a terminal state. -/
def opW : Operation :=
  { operationId := "op1", state := .Completed, progressPercent := 77,
    result := some "r", error := none, cancelRequested := false }

/-- A concrete Pending Operation. -/
def opP : Operation :=
  { operationId := "op2", state := .Pending, progressPercent := 0,
    result := none, error := none, cancelRequested := false }

/-- A concrete manager holding both concrete Operations. -/
def mgrW : OpManager := { ops := [opW, opP] }

/-- A concrete UpdateSubtask CLI capability for concrete scenarios. -/
def updSubW : List Char → List Char → CLIResult := fun _ _ => { Success := true }

theorem findProjectRoot_eq_tailsFind (f : String → List String → Bool) :
    ∀ l : List String,
      findProjectRoot f l =
        l.tails.find? (fun t => !t.isEmpty && hasMarker f t)
  | [] => by simp [findProjectRoot]
  | d :: rest => by
    rw [findProjectRoot, List.tails_cons]
    by_cases h : hasMarker f (d :: rest)
    · simp [h]
    · simp [h, findProjectRoot_eq_tailsFind f rest]

/-- C9: findProjectRoot returns the nearest directory, starting from the
resolved start directory and walking up parent by parent, containing at least
one project marker (the first match in the ancestor chain), and null when none
matches; the filesystem root itself is never examined, so markers present only
at the root yield null. Directories are component lists, leaf first; `[]` is
the filesystem root. -/
theorem findProjectRoot_correct (f : String → List String → Bool)
    (start : List String) :
    findProjectRoot f start =
      start.tails.find? (fun t => !t.isEmpty && hasMarker f t) ∧
    ((∀ t : List String, t ≠ [] → hasMarker f t = false) →
      findProjectRoot f start = none) := by
  refine ⟨findProjectRoot_eq_tailsFind f start, fun h => ?_⟩
  rw [findProjectRoot_eq_tailsFind f start]
  rw [List.find?_eq_none]
  intro t _
  cases t with
  | nil => simp
  | cons d rest => simp [h (d :: rest) (by simp)]

/-- Witness for C9: with a filesystem whose markers exist only in the root
directory, findProjectRoot from /home/proj (components leaf first) is null. -/
theorem findProjectRoot_correct_witness :
    findProjectRoot (fun _ dir => dir.isEmpty) ["proj", "home"] = none :=
  (findProjectRoot_correct (fun _ dir => dir.isEmpty) ["proj", "home"]).2
    (by
      intro t ht
      cases t with
      | nil => exact absurd rfl ht
      | cons d rest => simp [hasMarker, projectMarkers])

/-- C8: executeCommand reports Success exactly when the spawned process
completed without error; on failure both Error and Message are set from the
process error; Output always carries the process's combined stdout and
stderr. -/
theorem executeCommand_correct (output : String) (procErr : Option String) :
    ((executeCommand output procErr).Success = true ↔ procErr = none) ∧
    (executeCommand output procErr).Output = output ∧
    (∀ e, procErr = some e →
      (executeCommand output procErr).Error = e ∧
      (executeCommand output procErr).Message = "Command failed: " ++ e) := by
  cases procErr <;> simp [executeCommand]

/-- Witness for C8: the theorem instantiated at a failing process with combined
output "out" and error "exit status 1". -/
theorem executeCommand_correct_witness :
    ((executeCommand "out" (some "exit status 1")).Success = true ↔
      (some "exit status 1" : Option String) = none) ∧
    (executeCommand "out" (some "exit status 1")).Output = "out" ∧
    (∀ e, (some "exit status 1" : Option String) = some e →
      (executeCommand "out" (some "exit status 1")).Error = e ∧
      (executeCommand "out" (some "exit status 1")).Message =
        "Command failed: " ++ e) :=
  executeCommand_correct "out" (some "exit status 1")

theorem splitDot_ne_nil : ∀ s : List Char, splitDot s ≠ []
  | [] => by simp [splitDot]
  | c :: rest => by
    rw [splitDot]
    cases h : splitDot rest with
    | nil => simp
    | cons hd tl => by_cases hc : c = '.' <;> simp [hc]

theorem splitDot_shape : ∀ s : List Char,
    splitDot s = s.takeWhile (· ≠ '.') ::
      (if '.' ∈ s then splitDot ((s.dropWhile (· ≠ '.')).tail) else [])
  | [] => by simp [splitDot]
  | c :: rest => by
    rw [splitDot]
    by_cases hc : c = '.'
    · subst hc
      cases h : splitDot rest with
      | nil => exact absurd h (splitDot_ne_nil rest)
      | cons hd tl =>
        simp [List.takeWhile_cons, List.dropWhile_cons, h]
    · cases h : splitDot rest with
      | nil => exact absurd h (splitDot_ne_nil rest)
      | cons hd tl =>
        have := splitDot_shape rest
        rw [h] at this
        simp only [List.takeWhile_cons, List.dropWhile_cons, if_neg, hc,
          List.mem_cons]
        have hhd : hd = rest.takeWhile (· ≠ '.') := by
          exact (List.cons.injEq _ _ _ _ ▸ this).1
        have htl : tl = if '.' ∈ rest then
            splitDot ((rest.dropWhile (· ≠ '.')).tail) else [] := by
          exact (List.cons.injEq _ _ _ _ ▸ this).2
        have hcc : ¬ ('.' = c) := fun hh => hc hh.symm
        simp [hc, hcc, hhd, htl]

theorem joinDot_splitDot : ∀ s : List Char, joinDot (splitDot s) = s
  | [] => by simp [splitDot, joinDot]
  | c :: rest => by
    rw [splitDot]
    cases h : splitDot rest with
    | nil => exact absurd h (splitDot_ne_nil rest)
    | cons hd tl =>
      have ih : joinDot (hd :: tl) = rest := by
        rw [← h, joinDot_splitDot rest]
      by_cases hc : c = '.'
      · subst hc
        simp [joinDot, ih]
      · simp only [if_neg hc]
        cases tl with
        | nil =>
          simp only [joinDot] at ih ⊢
          rw [ih]
        | cons y t =>
          simp only [joinDot] at ih ⊢
          rw [List.cons_append, ih]

/-- C10: on a SubtaskID with no dot, executeUpdateSubtaskCommand yields a
failed CLIResult with the invalid-format error and performs no CLI invocation;
on a SubtaskID with two or more dot-separated parts it invokes the CLI once,
with the first part (the characters before the first dot) as the task ID and
the remaining parts rejoined with a dot (the characters after the first dot)
as the subtask ID; having a dot is equivalent to splitting into two or more
parts. -/
theorem executeUpdateSubtaskCommand_correct
    (f : List Char → List Char → CLIResult) (s : List Char) :
    ('.' ∉ s →
      executeUpdateSubtaskCommand f s =
        ({ Success := false,
           Error := "Invalid subtask ID format. Expected format like \x271.2\x27" },
         [])) ∧
    ('.' ∈ s →
      executeUpdateSubtaskCommand f s =
        (f (s.takeWhile (· ≠ '.')) ((s.dropWhile (· ≠ '.')).tail),
         [(s.takeWhile (· ≠ '.'), (s.dropWhile (· ≠ '.')).tail)])) ∧
    ('.' ∈ s ↔ 2 ≤ (splitDot s).length) := by
  have hshape := splitDot_shape s
  have hiff : '.' ∈ s ↔ 2 ≤ (splitDot s).length := by
    constructor
    · intro hyes
      rw [hshape, if_pos hyes]
      have := splitDot_ne_nil ((s.dropWhile (· ≠ '.')).tail)
      cases hsd : splitDot ((s.dropWhile (· ≠ '.')).tail) with
      | nil => exact absurd hsd this
      | cons a t => simp [hsd, List.length_cons]
    · intro hlen
      by_contra hno
      rw [hshape, if_neg hno] at hlen
      simp at hlen
  refine ⟨fun hno => ?_, fun hyes => ?_, hiff⟩
  · have hlen : (splitDot s).length < 2 := by
      rw [hshape, if_neg hno]
      simp
    simp only [executeUpdateSubtaskCommand, if_pos hlen]
  · have hlen : ¬ (splitDot s).length < 2 := by
      have := hiff.mp hyes
      omega
    simp only [executeUpdateSubtaskCommand, if_neg hlen]
    rw [hshape, if_pos hyes]
    simp only [List.headD_cons, List.tail_cons]
    rw [joinDot_splitDot]

/-- Witness for C10: the SubtaskID 1.2.3 invokes the CLI with task ID 1 and
subtask ID 2.3, and the dotless SubtaskID 12 yields the invalid-format failure
with no CLI invocation. -/
theorem executeUpdateSubtaskCommand_correct_witness :
    executeUpdateSubtaskCommand updSubW ['1', '.', '2', '.', '3'] =
      (updSubW ['1'] ['2', '.', '3'], [(['1'], ['2', '.', '3'])]) ∧
    executeUpdateSubtaskCommand updSubW ['1', '2'] =
      ({ Success := false,
         Error := "Invalid subtask ID format. Expected format like \x271.2\x27" },
       []) :=
  ⟨(executeUpdateSubtaskCommand_correct updSubW ['1', '.', '2', '.', '3']).2.1
      (by decide),
   (executeUpdateSubtaskCommand_correct updSubW ['1', '2']).1 (by decide)⟩

theorem find_map_update (l : List Operation) (j id : String)
    (g : Operation → Operation) (hg : ∀ x, (g x).operationId = x.operationId) :
    (l.map (fun op => if op.operationId == j then g op else op)).find?
        (fun op => op.operationId == id) =
      (l.find? (fun op => op.operationId == id)).map
        (fun op => if op.operationId == j then g op else op) := by
  induction l with
  | nil => simp
  | cons op0 t ih =>
    have hid : (if op0.operationId == j then g op0 else op0).operationId =
        op0.operationId := by
      split
      · exact hg op0
      · rfl
    simp only [List.map_cons, List.find?]
    rw [hid]
    cases h0 : op0.operationId == id
    · simpa using ih
    · simp

theorem lookup_update (m : OpManager) (j id : String)
    (g : Operation → Operation) (hg : ∀ x, (g x).operationId = x.operationId) :
    (m.update j g).lookup id =
      (m.lookup id).map (fun op => if op.operationId == j then g op else op) :=
  find_map_update m.ops j id g hg

theorem lookup_found_id (m : OpManager) (id : String) (op : Operation)
    (hop : m.lookup id = some op) : (op.operationId == id) = true := by
  have h : m.ops.find? (fun o => o.operationId == id) = some op := hop
  simpa using List.find?_some h

theorem update_preserving (m : OpManager) (j id : String)
    (g : Operation → Operation) (op : Operation) (hop : m.lookup id = some op)
    (hg : ∀ x, (g x).operationId = x.operationId)
    (hs : (g op).state = op.state)
    (hp : (g op).progressPercent = op.progressPercent) :
    ∃ op', (m.update j g).lookup id = some op' ∧ op'.state = op.state ∧
      op'.progressPercent = op.progressPercent := by
  rw [lookup_update m j id g hg, hop, Option.map_some']
  refine ⟨_, rfl, ?_, ?_⟩ <;> split <;> simp [hs, hp]

theorem applyAction_preserves_terminal (m : OpManager) (a : MgrAction)
    (id : String) (op : Operation) (hop : m.lookup id = some op)
    (ht : isTerminal op.state = true) :
    ∃ op', (applyAction m a).lookup id = some op' ∧ op'.state = op.state ∧
      op'.progressPercent = op.progressPercent := by
  have hpend : (op.state == OpState.Pending) = false := by
    cases h : op.state <;> simp_all [isTerminal]
  have hrun : (op.state == OpState.Running) = false := by
    cases h : op.state <;> simp_all [isTerminal]
  cases a with
  | report j p =>
    exact update_preserving m j id (reportFn p) op hop
      (fun x => by unfold reportFn; split <;> rfl)
      (by simp [reportFn, ht]) (by simp [reportFn, ht])
  | cancel j =>
    exact update_preserving m j id cancelFn op hop (fun x => rfl) rfl rfl
  | start j =>
    exact update_preserving m j id startFn op hop
      (fun x => by unfold startFn; split <;> rfl)
      (by simp [startFn, hpend]) (by simp [startFn, hpend])
  | complete j res =>
    exact update_preserving m j id (finishFn .Completed (setResult res)) op hop
      (fun x => by unfold finishFn setResult; split <;> rfl)
      (by simp [finishFn, hrun]) (by simp [finishFn, hrun])
  | fail j err =>
    exact update_preserving m j id (finishFn .Failed (setError err)) op hop
      (fun x => by unfold finishFn setError; split <;> rfl)
      (by simp [finishFn, hrun]) (by simp [finishFn, hrun])
  | finishCancelled j =>
    exact update_preserving m j id (finishFn .Cancelled (fun op => op)) op hop
      (fun x => by unfold finishFn; split <;> rfl)
      (by simp [finishFn, hrun]) (by simp [finishFn, hrun])

theorem applyActions_preserves_terminal (as : List MgrAction) :
    ∀ (m : OpManager) (id : String) (op : Operation), m.lookup id = some op →
      isTerminal op.state = true →
      ∃ op', (applyActions m as).lookup id = some op' ∧ op'.state = op.state ∧
        op'.progressPercent = op.progressPercent := by
  induction as with
  | nil => exact fun m id op hop _ => ⟨op, hop, rfl, rfl⟩
  | cons a t ih =>
    intro m id op hop ht
    obtain ⟨op1, h1, hs1, hp1⟩ := applyAction_preserves_terminal m a id op hop ht
    obtain ⟨op2, h2, hs2, hp2⟩ :=
      ih (applyAction m a) id op1 h1 (by rw [hs1]; exact ht)
    exact ⟨op2, by simpa [applyActions, List.foldl] using h2,
      by rw [hs2, hs1], by rw [hp2, hp1]⟩

theorem applyAction_step (m : OpManager) (a : MgrAction) (id : String)
    (op op' : Operation) (hop : m.lookup id = some op)
    (hop' : (applyAction m a).lookup id = some op') :
    op'.state = op.state ∨ allowedEdge op.state op'.state = true := by
  cases a with
  | report j p =>
    have h2 : (m.update j (reportFn p)).lookup id = some op' := hop'
    rw [lookup_update m j id (reportFn p)
        (fun x => by unfold reportFn; split <;> rfl), hop,
      Option.map_some'] at h2
    replace h2 := (Option.some.inj h2).symm
    rw [h2]
    by_cases hj : (op.operationId == j) = true
    · rw [if_pos hj]
      unfold reportFn
      by_cases hterm : isTerminal op.state = true
      · rw [if_pos hterm]
        exact Or.inl rfl
      · rw [if_neg hterm]
        cases hs : op.state <;> simp_all [allowedEdge, isTerminal]
    · rw [if_neg hj]
      exact Or.inl rfl
  | cancel j =>
    have h2 : (m.update j cancelFn).lookup id = some op' := hop'
    rw [lookup_update m j id cancelFn (fun x => rfl), hop,
      Option.map_some'] at h2
    replace h2 := (Option.some.inj h2).symm
    rw [h2]
    split <;> exact Or.inl rfl
  | start j =>
    have h2 : (m.update j startFn).lookup id = some op' := hop'
    rw [lookup_update m j id startFn
        (fun x => by unfold startFn; split <;> rfl), hop,
      Option.map_some'] at h2
    replace h2 := (Option.some.inj h2).symm
    rw [h2]
    by_cases hj : (op.operationId == j) = true
    · rw [if_pos hj]
      unfold startFn
      cases hs : op.state <;> simp_all [allowedEdge, isTerminal]
    · rw [if_neg hj]
      exact Or.inl rfl
  | complete j res =>
    have h2 : (m.update j (finishFn .Completed (setResult res))).lookup id =
        some op' := hop'
    rw [lookup_update m j id (finishFn .Completed (setResult res))
        (fun x => by unfold finishFn setResult; split <;> rfl), hop,
      Option.map_some'] at h2
    replace h2 := (Option.some.inj h2).symm
    rw [h2]
    by_cases hj : (op.operationId == j) = true
    · rw [if_pos hj]
      unfold finishFn setResult
      cases hs : op.state <;> simp_all [allowedEdge, isTerminal]
    · rw [if_neg hj]
      exact Or.inl rfl
  | fail j err =>
    have h2 : (m.update j (finishFn .Failed (setError err))).lookup id =
        some op' := hop'
    rw [lookup_update m j id (finishFn .Failed (setError err))
        (fun x => by unfold finishFn setError; split <;> rfl), hop,
      Option.map_some'] at h2
    replace h2 := (Option.some.inj h2).symm
    rw [h2]
    by_cases hj : (op.operationId == j) = true
    · rw [if_pos hj]
      unfold finishFn setError
      cases hs : op.state <;> simp_all [allowedEdge, isTerminal]
    · rw [if_neg hj]
      exact Or.inl rfl
  | finishCancelled j =>
    have h2 : (m.update j (finishFn .Cancelled (fun op => op))).lookup id =
        some op' := hop'
    rw [lookup_update m j id (finishFn .Cancelled (fun op => op))
        (fun x => by unfold finishFn; split <;> rfl), hop,
      Option.map_some'] at h2
    replace h2 := (Option.some.inj h2).symm
    rw [h2]
    by_cases hj : (op.operationId == j) = true
    · rw [if_pos hj]
      unfold finishFn
      cases hs : op.state <;> simp_all [allowedEdge, isTerminal]
    · rw [if_neg hj]
      exact Or.inl rfl

theorem reportProgress_nonterminal (m : OpManager) (id : String) (p : Int)
    (op : Operation) (hop : m.lookup id = some op)
    (ht : isTerminal op.state = false) :
    ∃ op', (reportProgress m id p).lookup id = some op' ∧
      op'.state = .Running ∧ op'.progressPercent = clampPercent p := by
  have hbeq := lookup_found_id m id op hop
  rw [reportProgress, lookup_update m id id (reportFn p)
    (fun x => by unfold reportFn; split <;> rfl), hop, Option.map_some']
  refine ⟨_, rfl, ?_, ?_⟩ <;> rw [if_pos hbeq] <;> simp [reportFn, ht]

theorem clampPercent_spec (p : Int) :
    clampPercent p ≤ 100 ∧ (0 ≤ p → p ≤ 100 → (clampPercent p : Int) = p) := by
  unfold clampPercent
  omega

/-- C5: every Operation follows the state machine Pending -> Running ->
(Completed | Failed | Cancelled): every manager call either leaves an
operation's state unchanged or follows an allowed edge; once an operation is
in a terminal state, no subsequent call sequence (reportProgress and cancel
included) changes its state or progress; and reportProgress on a non-terminal
operation moves it to Running (so a Pending operation moves to Running on the
first call) storing the reported percent clamped into [0,100]. -/
theorem operation_state_machine :
    (∀ (m : OpManager) (a : MgrAction) (id : String) (op op' : Operation),
        m.lookup id = some op → (applyAction m a).lookup id = some op' →
        op'.state = op.state ∨ allowedEdge op.state op'.state = true) ∧
    (∀ (as : List MgrAction) (m : OpManager) (id : String) (op : Operation),
        m.lookup id = some op → isTerminal op.state = true →
        ∃ op', (applyActions m as).lookup id = some op' ∧
          op'.state = op.state ∧ op'.progressPercent = op.progressPercent) ∧
    (∀ (m : OpManager) (id : String) (p : Int) (op : Operation),
        m.lookup id = some op → isTerminal op.state = false →
        ∃ op', (reportProgress m id p).lookup id = some op' ∧
          op'.state = .Running ∧ op'.progressPercent = clampPercent p) ∧
    (∀ p : Int, clampPercent p ≤ 100 ∧
      (0 ≤ p → p ≤ 100 → (clampPercent p : Int) = p)) :=
  ⟨applyAction_step, applyActions_preserves_terminal,
   reportProgress_nonterminal, clampPercent_spec⟩

/-- Witness for C5: on the Completed operation op1 at 77%, a
report-cancel-complete call sequence leaves state and progress unchanged, and
reportProgress 150 on the Pending operation op2 moves it to Running with the
percent clamped. -/
theorem operation_state_machine_witness :
    (∃ op', (applyActions mgrW
        [.report "op1" 50, .cancel "op1", .complete "op1" "x"]).lookup "op1" =
          some op' ∧ op'.state = opW.state ∧
          op'.progressPercent = opW.progressPercent) ∧
    (∃ op', (reportProgress mgrW "op2" 150).lookup "op2" = some op' ∧
      op'.state = .Running ∧ op'.progressPercent = clampPercent 150) :=
  ⟨operation_state_machine.2.1 [.report "op1" 50, .cancel "op1",
      .complete "op1" "x"] mgrW "op1" opW (by decide) (by decide),
   operation_state_machine.2.2.1 mgrW "op2" 150 opP (by decide) (by decide)⟩

theorem runSil_restores : ∀ (p : SilProg) (n : Nat), (runSil p n).2.1 = n := by
  intro p
  induction p with
  | write => intro n; rfl
  | throwE => intro n; rfl
  | seq p q ihp ihq =>
    intro n
    simp only [runSil]
    rcases hp : runSil p n with ⟨ok, n', ws⟩
    have hn' : n' = n := by
      have := ihp n
      rw [hp] at this
      exact this
    cases ok
    · simpa using hn'
    · have h2 := ihq n'
      simp only [hn'] at h2 ⊢
      simpa using h2
  | silence p ih =>
    intro n
    simp only [runSil]
    rcases hp : runSil p (n + 1) with ⟨ok, n', ws⟩
    have hn' : n' = n + 1 := by
      have := ih (n + 1)
      rw [hp] at this
      exact this
    simp [hn']

theorem runSil_suppressed : ∀ (p : SilProg) (n : Nat), 1 ≤ n →
    ∀ b ∈ (runSil p n).2.2, b = true := by
  intro p
  induction p with
  | write =>
    intro n hn b hb
    simp only [runSil, List.mem_singleton] at hb
    subst hb
    simpa using hn
  | throwE =>
    intro n hn b hb
    simp [runSil] at hb
  | seq p q ihp ihq =>
    intro n hn b hb
    simp only [runSil] at hb
    rcases hp : runSil p n with ⟨ok, n', ws⟩
    have hn' : n' = n := by
      have := runSil_restores p n
      rw [hp] at this
      exact this
    rw [hp] at hb
    cases ok
    · simp only at hb
      exact ihp n hn b (by rw [hp]; simpa using hb)
    · simp only [List.mem_append] at hb
      cases hb with
      | inl h => exact ihp n hn b (by rw [hp]; simpa using h)
      | inr h => exact ihq n' (by rw [hn']; exact hn) b h
  | silence p ih =>
    intro n hn b hb
    simp only [runSil] at hb
    rcases hp : runSil p (n + 1) with ⟨ok, n', ws⟩
    rw [hp] at hb
    exact ih (n + 1) (by omega) b (by rw [hp]; simpa using hb)

/-- C6: the console-suppression state is reference-counted and restored on
every exit path: running any bracket structure (including throwing bodies)
returns the counter to its prior value, so `withSilence` restores the global
state whether the body returns or throws; while at least one silencer is
active every console write observes suppression, so nested silencers keep
output suppressed until the outermost exits even when an inner one exits
first; and under interleaved (concurrently overlapping) enter/exit events a
finishing silencer does not re-enable output while a sibling is still in
flight. -/
theorem withSilence_refcount :
    (∀ (p : SilProg) (n : Nat), (runSil p n).2.1 = n) ∧
    (∀ (p : SilProg) (n : Nat), 1 ≤ n → ∀ b ∈ (runSil p n).2.2, b = true) ∧
    runSilEvents 0 [.enter, .enter, .exitB, .write, .exitB] = (0, [true]) :=
  ⟨runSil_restores, runSil_suppressed, by decide⟩

/-- Witness for C6: inside one outer silencer, a body that nests an inner
silencer, writes after the inner one exits, and then throws, has every write
suppressed, and the outer bracket restores the counter to 0 on the exception
path. -/
theorem withSilence_refcount_witness :
    ((runSil (.seq (.silence .write) (.seq .write .throwE)) 1).2.2.all
        (fun b => b) = true) ∧
    (runSil (SilProg.silence
        (.seq (.silence .write) (.seq .write .throwE))) 0).2.1 = 0 :=
  ⟨List.all_eq_true.mpr
      (withSilence_refcount.2.1 (.seq (.silence .write) (.seq .write .throwE))
        1 (by decide)),
   withSilence_refcount.1
      (SilProg.silence (.seq (.silence .write) (.seq .write .throwE))) 0⟩

theorem runCandidate_ok (base maxD : Nat)
    (outcome : Nat → Except ErrorKind Response) (n : Nat) (r : Response)
    (h : outcome n = .ok r) :
    runCandidate base maxD outcome n =
      { outcome := .ok r, attempts := n, delays := [] } := by
  unfold runCandidate
  rw [h]

theorem runCandidate_stop (base maxD : Nat)
    (outcome : Nat → Except ErrorKind Response) (n : Nat) (k : ErrorKind)
    (h : outcome n = .error k) (hr : (shouldRetry base maxD k n).retry = false) :
    runCandidate base maxD outcome n =
      { outcome := .error k, attempts := n, delays := [] } := by
  unfold runCandidate
  rw [h]
  simp [hr]

theorem runCandidate_retry (base maxD : Nat)
    (outcome : Nat → Except ErrorKind Response) (n : Nat) (k : ErrorKind)
    (h : outcome n = .error k) (hr : (shouldRetry base maxD k n).retry = true) :
    runCandidate base maxD outcome n =
      CandResult.withDelay (shouldRetry base maxD k n).delayMs
        (runCandidate base maxD outcome (n + 1)) := by
  conv_lhs => rw [runCandidate.eq_def]
  rw [h]
  simp [hr]

theorem backoffDelay_increasing (base maxD n : Nat) (hn : 1 ≤ n)
    (hb : 0 < base) :
    backoffDelay base maxD n < backoffDelay base maxD (n + 1) ∨
      (backoffDelay base maxD n = maxD ∧
        backoffDelay base maxD (n + 1) = maxD) := by
  have hpow : (2 : Nat) ^ (n - 1) < 2 ^ n :=
    Nat.pow_lt_pow_right (by omega) (by omega)
  have hmul : base * 2 ^ (n - 1) < base * 2 ^ n :=
    mul_lt_mul_of_pos_left hpow hb
  unfold backoffDelay
  simp only [Nat.add_sub_cancel]
  omega

theorem runCandidate_rateLimited (base maxD : Nat)
    (outcome : Nat → Except ErrorKind Response)
    (h : ∀ m, outcome m = .error .RateLimited) :
    runCandidate base maxD outcome 1 =
      { outcome := .error .RateLimited, attempts := 1 + maxRetries,
        delays := [backoffDelay base maxD 1, backoffDelay base maxD 2,
                   backoffDelay base maxD 3] } := by
  rw [runCandidate_retry base maxD outcome 1 .RateLimited (h 1) rfl,
    runCandidate_retry base maxD outcome 2 .RateLimited (h 2) rfl,
    runCandidate_retry base maxD outcome 3 .RateLimited (h 3) rfl,
    runCandidate_stop base maxD outcome 4 .RateLimited (h 4) rfl]
  rfl

/-- C2: the Retry Policy computes the backoff delay for attempt n as
min(baseDelay * 2^(n-1), maxDelay); successive delays are strictly increasing
for a positive base delay, or equal once the maxDelay cap is reached; and a
candidate failing persistently with RateLimited is retried up to maxRetries =
3 times — performing 1 + 3 attempts with the three successive backoff sleeps —
before giving up so the dispatcher falls through to the next candidate. -/
theorem retry_backoff_c2 :
    (∀ (base maxD : Nat) (k : ErrorKind) (n : Nat),
        (shouldRetry base maxD k n).retry = true →
        (shouldRetry base maxD k n).delayMs = min (base * 2 ^ (n - 1)) maxD) ∧
    (∀ (base maxD n : Nat), 1 ≤ n → 0 < base →
        backoffDelay base maxD n < backoffDelay base maxD (n + 1) ∨
          (backoffDelay base maxD n = maxD ∧
            backoffDelay base maxD (n + 1) = maxD)) ∧
    (∀ (base maxD : Nat) (outcome : Nat → Except ErrorKind Response),
        (∀ m, outcome m = .error .RateLimited) →
        runCandidate base maxD outcome 1 =
          { outcome := .error .RateLimited, attempts := 1 + maxRetries,
            delays := [backoffDelay base maxD 1, backoffDelay base maxD 2,
                       backoffDelay base maxD 3] }) := by
  refine ⟨?_, backoffDelay_increasing, runCandidate_rateLimited⟩
  intro base maxD k n hr
  unfold shouldRetry at hr ⊢
  by_cases hc : (isRetryable k && decide (n ≤ maxRetries)) = true
  · rw [if_pos hc]
    rfl
  · rw [if_neg hc] at hr
    simp at hr

/-- Witness for C2: with baseDelay 5 and maxDelay 30, the delay formula,
the monotonicity at attempt 1, and the persistent-RateLimited run of
1 + 3 attempts with sleeps 5, 10, 20 are all realized. -/
theorem retry_backoff_c2_witness :
    (shouldRetry 5 30 .RateLimited 2).delayMs = min (5 * 2 ^ (2 - 1)) 30 ∧
    (backoffDelay 5 30 1 < backoffDelay 5 30 2 ∨
      (backoffDelay 5 30 1 = 30 ∧ backoffDelay 5 30 2 = 30)) ∧
    runCandidate 5 30 (fun _ => .error .RateLimited) 1 =
      { outcome := .error .RateLimited, attempts := 1 + maxRetries,
        delays := [backoffDelay 5 30 1, backoffDelay 5 30 2,
                   backoffDelay 5 30 3] } :=
  ⟨retry_backoff_c2.1 5 30 .RateLimited 2 rfl,
   retry_backoff_c2.2.1 5 30 1 (by decide) (by decide),
   retry_backoff_c2.2.2 5 30 (fun _ => .error .RateLimited) (fun _ => rfl)⟩

/-- C3: shouldRetry answers retry = false at every attempt number for the
kinds AuthError, ValidationError, ProviderUnavailable and Unknown; an
AuthError therefore ends the candidate at the very attempt that raised it with
no further attempt and no sleep; and the dispatcher moves immediately to the
next chain candidate, appending a single AttemptRecord for the AuthError. -/
theorem retry_nonretryable_c3 :
    (∀ (base maxD n : Nat),
        (shouldRetry base maxD .AuthError n).retry = false ∧
        (shouldRetry base maxD .ValidationError n).retry = false ∧
        (shouldRetry base maxD .ProviderUnavailable n).retry = false ∧
        (shouldRetry base maxD .Unknown n).retry = false) ∧
    (∀ (base maxD : Nat) (outcome : Nat → Except ErrorKind Response) (n : Nat),
        outcome n = .error .AuthError →
        runCandidate base maxD outcome n =
          { outcome := .error .AuthError, attempts := n, delays := [] }) ∧
    (∀ (base maxD : Nat) (cEnv pEnv : List (String × String))
        (call : ProviderCall) (c : ProviderConfig) (rest : List ProviderConfig)
        (log : List AttemptRecord) (key : String),
        resolveKey c.providerId cEnv pEnv = some key →
        call c key 1 = .error .AuthError →
        dispatchGo base maxD cEnv pEnv call (c :: rest) log =
          dispatchGo base maxD cEnv pEnv call rest
            (log ++ [mkRecord c (.callFailed .AuthError) 1])) := by
  refine ⟨fun base maxD n => ⟨rfl, rfl, rfl, rfl⟩, ?_, ?_⟩
  · intro base maxD outcome n h
    exact runCandidate_stop base maxD outcome n .AuthError h rfl
  · intro base maxD cEnv pEnv call c rest log key hkey hcall
    have h1 := runCandidate_stop base maxD (call c key) 1 .AuthError hcall rfl
    simp only [dispatchGo, hkey, h1]

/-- Witness for C3: provider A of the concrete scenario raises AuthError on
its first attempt and the candidate ends after exactly that attempt with no
backoff sleep. -/
theorem retry_nonretryable_c3_witness :
    (shouldRetry 5 30 .AuthError 1).retry = false ∧
    runCandidate 5 30 (callW pcA "ka") 1 =
      { outcome := .error .AuthError, attempts := 1, delays := [] } :=
  ⟨(retry_nonretryable_c3.1 5 30 1).1,
   retry_nonretryable_c3.2.1 5 30 (callW pcA "ka") 1 rfl⟩

theorem failRecord_fields (base maxD : Nat)
    (cEnv pEnv : List (String × String)) (call : ProviderCall)
    (c : ProviderConfig) :
    (failRecord base maxD cEnv pEnv call c).providerId = c.providerId ∧
    (failRecord base maxD cEnv pEnv call c).modelId = c.modelId := by
  cases hk : resolveKey c.providerId cEnv pEnv with
  | none => simp [failRecord, hk, mkRecord]
  | some key =>
    cases ho : (runCandidate base maxD (call c key) 1).outcome <;>
      simp [failRecord, hk, ho, mkRecord]

theorem dispatchGo_all_fail (base maxD : Nat)
    (cEnv pEnv : List (String × String)) (call : ProviderCall) :
    ∀ (chain : List ProviderConfig) (log : List AttemptRecord),
      (∀ c ∈ chain, candidateFails base maxD cEnv pEnv call c = true) →
      dispatchGo base maxD cEnv pEnv call chain log =
        .failure (log ++ chain.map (failRecord base maxD cEnv pEnv call)) := by
  intro chain
  induction chain with
  | nil => intro log _; simp [dispatchGo]
  | cons c rest ih =>
    intro log h
    have hc := h c (List.mem_cons_self c rest)
    have hrest := fun x hx => h x (List.mem_cons_of_mem c hx)
    cases hk : resolveKey c.providerId cEnv pEnv with
    | none =>
      simp only [dispatchGo, hk]
      rw [ih _ hrest]
      simp [failRecord, hk]
    | some key =>
      cases ho : (runCandidate base maxD (call c key) 1).outcome with
      | ok resp => simp [candidateFails, hk, ho] at hc
      | error k =>
        simp only [dispatchGo, hk, ho]
        rw [ih _ hrest]
        simp [failRecord, hk, ho]

/-- C1: when the resolved FallbackChain has length N and every candidate
fails, dispatch returns AggregatedFailure carrying exactly N AttemptRecords,
one per candidate and in chain order (each record names its candidate's
providerId and modelId); no per-candidate error surfaces any other way, the
only non-success outcomes of a dispatch being this aggregate and the
configuration errors of chain resolution. -/
theorem dispatch_aggregates_c1 (cfg : RoleConfig) (base maxD : Nat)
    (cEnv pEnv : List (String × String)) (call : ProviderCall) (r : Role)
    (chain : List ProviderConfig) (hchain : resolveChain cfg r = .ok chain)
    (hfail : ∀ c ∈ chain, candidateFails base maxD cEnv pEnv call c = true) :
    dispatch cfg base maxD cEnv pEnv call r =
      .failure (chain.map (failRecord base maxD cEnv pEnv call)) ∧
    (chain.map (failRecord base maxD cEnv pEnv call)).length = chain.length ∧
    (chain.map (failRecord base maxD cEnv pEnv call)).map
        (fun a => (a.providerId, a.modelId)) =
      chain.map (fun c => (c.providerId, c.modelId)) := by
  refine ⟨?_, by simp, ?_⟩
  · simp only [dispatch, hchain]
    rw [dispatchGo_all_fail base maxD cEnv pEnv call chain [] hfail]
    simp
  · rw [List.map_map]
    apply List.map_congr_left
    intro c _
    have := failRecord_fields base maxD cEnv pEnv call c
    simp [this.1, this.2]

/-- Witness for C1: with no credentials configured, dispatching role main over
the chain provA, provB fails on both candidates and aggregates exactly their
two records in chain order. -/
theorem dispatch_aggregates_c1_witness :
    dispatch cfgW 1 8 [] [] callW .main =
      .failure ([pcA, pcB].map (failRecord 1 8 [] [] callW)) ∧
    ([pcA, pcB].map (failRecord 1 8 [] [] callW)).length = [pcA, pcB].length ∧
    ([pcA, pcB].map (failRecord 1 8 [] [] callW)).map
        (fun a => (a.providerId, a.modelId)) =
      [pcA, pcB].map (fun c => (c.providerId, c.modelId)) :=
  dispatch_aggregates_c1 cfgW 1 8 [] [] callW .main [pcA, pcB] rfl
    (by intro c hc; fin_cases hc <;> rfl)

theorem dispatchGo_skip_fail (base maxD : Nat)
    (cEnv pEnv : List (String × String)) (call : ProviderCall) :
    ∀ (pre rest : List ProviderConfig) (log : List AttemptRecord),
      (∀ x ∈ pre, candidateFails base maxD cEnv pEnv call x = true) →
      dispatchGo base maxD cEnv pEnv call (pre ++ rest) log =
        dispatchGo base maxD cEnv pEnv call rest
          (log ++ pre.map (failRecord base maxD cEnv pEnv call)) := by
  intro pre
  induction pre with
  | nil => intro rest log _; simp
  | cons c t ih =>
    intro rest log h
    have hc := h c (List.mem_cons_self c t)
    have ht := fun x hx => h x (List.mem_cons_of_mem c hx)
    rw [List.cons_append]
    cases hk : resolveKey c.providerId cEnv pEnv with
    | none =>
      simp only [dispatchGo, hk]
      rw [ih rest _ ht]
      simp [failRecord, hk]
    | some key =>
      cases ho : (runCandidate base maxD (call c key) 1).outcome with
      | ok resp => simp [candidateFails, hk, ho] at hc
      | error k =>
        simp only [dispatchGo, hk, ho]
        rw [ih rest _ ht]
        simp [failRecord, hk, ho]

/-- C7: when the candidates before position i all fail and candidate i
succeeds, dispatch returns candidate i's Response immediately — the result
does not depend on the behavior of any candidate after i — and the attempt
log carried with the success holds exactly the records of the earlier failing
candidates. -/
theorem dispatch_success_c7 (cfg : RoleConfig) (base maxD : Nat)
    (cEnv pEnv : List (String × String)) (call : ProviderCall) (r : Role)
    (pre : List ProviderConfig) (c : ProviderConfig)
    (post : List ProviderConfig) (key : String) (resp : Response)
    (hchain : resolveChain cfg r = .ok (pre ++ c :: post))
    (hpre : ∀ x ∈ pre, candidateFails base maxD cEnv pEnv call x = true)
    (hkey : resolveKey c.providerId cEnv pEnv = some key)
    (hok : (runCandidate base maxD (call c key) 1).outcome = .ok resp) :
    dispatch cfg base maxD cEnv pEnv call r =
      .success resp (pre.map (failRecord base maxD cEnv pEnv call)) ∧
    (pre.map (failRecord base maxD cEnv pEnv call)).length = pre.length := by
  refine ⟨?_, by simp⟩
  simp only [dispatch, hchain]
  rw [dispatchGo_skip_fail base maxD cEnv pEnv call pre (c :: post) [] hpre]
  simp only [dispatchGo, hkey, hok, List.nil_append]

/-- Witness for C7: role main resolves to provider A then global fallback B;
A fails with AuthError, B succeeds; dispatch returns B's response with an
attempt log of length 1 holding only A's record. -/
theorem dispatch_success_c7_witness :
    dispatch cfgW 1 8 envW [] callW .main =
      .success { text := "ok" } ([pcA].map (failRecord 1 8 envW [] callW)) ∧
    ([pcA].map (failRecord 1 8 envW [] callW)).length = [pcA].length :=
  dispatch_success_c7 cfgW 1 8 envW [] callW .main [pcA] pcB [] "kb"
    { text := "ok" } rfl
    (by
      intro x hx
      simp only [List.mem_singleton] at hx
      subst hx
      have h0 : resolveKey pcA.providerId envW [] = some "ka" := rfl
      have h1 : runCandidate 1 8 (callW pcA "ka") 1 =
          { outcome := .error .AuthError, attempts := 1, delays := [] } :=
        runCandidate_stop 1 8 (callW pcA "ka") 1 .AuthError rfl rfl
      simp [candidateFails, h0, h1])
    rfl
    (by rw [runCandidate_ok 1 8 (callW pcB "kb") 1 { text := "ok" } rfl])

theorem canonFields_eq_map : ∀ fs : List (String × ArgValue),
    canonFields fs = fs.map (fun p => (p.1, canonArg p.2))
  | [] => rfl
  | (k, v) :: fs => by
    rw [canonFields, canonFields_eq_map fs]
    rfl

theorem canonFields_keys : ∀ fs : List (String × ArgValue),
    (canonFields fs).map Prod.fst = fs.map Prod.fst
  | [] => rfl
  | (k, v) :: fs => by
    rw [canonFields, List.map_cons, List.map_cons, canonFields_keys fs]

theorem sorted_keyLT_of_nodup (l : List (String × ArgValue))
    (hs : l.Sorted keyLE) (hnd : (l.map Prod.fst).Nodup) : l.Sorted keyLT := by
  have hne : l.Pairwise (fun p q : String × ArgValue => p.1 ≠ q.1) := by
    rw [List.Nodup, List.pairwise_map] at hnd
    exact hnd
  exact (hs.and hne).imp (fun h => lt_of_le_of_ne h.1 h.2)

theorem sortFields_eq_of_perm (l1 l2 : List (String × ArgValue))
    (hp : l1.Perm l2) (hnd : (l1.map Prod.fst).Nodup) :
    sortFields l1 = sortFields l2 := by
  have hperm : (sortFields l1).Perm (sortFields l2) :=
    ((List.perm_insertionSort keyLE l1).trans hp).trans
      (List.perm_insertionSort keyLE l2).symm
  have hnd1 : ((sortFields l1).map Prod.fst).Nodup :=
    (((List.perm_insertionSort keyLE l1).map Prod.fst).nodup_iff).mpr hnd
  have hnd2 : ((sortFields l2).map Prod.fst).Nodup :=
    ((hperm.map Prod.fst).nodup_iff).mp hnd1
  exact List.eq_of_perm_of_sorted hperm
    (sorted_keyLT_of_nodup _ (List.sorted_insertionSort keyLE l1) hnd1)
    (sorted_keyLT_of_nodup _ (List.sorted_insertionSort keyLE l2) hnd2)

mutual

theorem kpe_canon {a b : ArgValue} (h : KeyPermEq a b) :
    canonArg a = canonArg b :=
  match h with
  | .null => rfl
  | .bool _ => rfl
  | .num _ => rfl
  | .str _ => rfl
  | .arr hl => by
    rw [canonArg, canonArg, kpeList_canon hl]
  | .obj hnd hf hp => by
    obtain ⟨hcf, hkeys⟩ := kpeFields_canon hf
    rw [canonArg, canonArg]
    rw [hcf]
    congr 1
    apply sortFields_eq_of_perm
    · rw [canonFields_eq_map, canonFields_eq_map]
      exact hp.map _
    · rw [canonFields_keys, ← hkeys]
      exact hnd

theorem kpeList_canon {xs ys : List ArgValue} (h : KeyPermEqList xs ys) :
    canonList xs = canonList ys :=
  match h with
  | .nil => rfl
  | .cons hx hxs => by
    rw [canonList, canonList, kpe_canon hx, kpeList_canon hxs]

theorem kpeFields_canon {fs gs : List (String × ArgValue)}
    (h : KeyPermEqFields fs gs) :
    canonFields fs = canonFields gs ∧ fs.map Prod.fst = gs.map Prod.fst :=
  match h with
  | .nil => ⟨rfl, rfl⟩
  | .cons hv hfs => by
    obtain ⟨h1, h2⟩ := kpeFields_canon hfs
    constructor
    · rw [canonFields, canonFields, kpe_canon hv, h1]
    · rw [List.map_cons, List.map_cons, h2]

end

theorem fingerprint_eq_of_kpe {a b : ArgValue} (h : KeyPermEq a b) :
    fingerprint a = fingerprint b := by
  unfold fingerprint
  rw [kpe_canon h]

/-- C4: argument objects equal up to key ordering fingerprint identically, so
they share one CacheKey; starting from a cache without that key, the first
getOrExecute call misses (invoking compute once, fromCache = false) and the
second call with the permuted arguments hits the entry stored by the first
(fromCache = true, compute not invoked) returning the same value. -/
theorem getOrExecute_hit {α : Type} (c : ResultCache α) (name : String)
    (args : ArgValue) (compute : Unit → Except String α) (e : CacheEntry α)
    (hfind : c.entries.find? (fun x => x.key == (name, fingerprint args)) =
      some e) :
    (getOrExecute c name args compute).1 = .ok e.value ∧
    (getOrExecute c name args compute).2.1 = true := by
  simp only [getOrExecute, hfind]
  exact ⟨trivial, trivial⟩

theorem getOrExecute_miss {α : Type} (c : ResultCache α) (name : String)
    (args : ArgValue) (compute : Unit → Except String α) (v : α)
    (hmiss : c.entries.find? (fun x => x.key == (name, fingerprint args)) =
      none)
    (hcompute : compute () = .ok v) :
    (getOrExecute c name args compute).1 = .ok v ∧
    (getOrExecute c name args compute).2.1 = false ∧
    (getOrExecute c name args compute).2.2.entries =
      ({ key := (name, fingerprint args), value := v, hitCount := 0 } ::
        c.entries).take c.capacity := by
  simp only [getOrExecute, hmiss, hcompute]
  exact ⟨trivial, trivial, trivial⟩

/-- C4: argument objects equal up to key ordering fingerprint identically, so
they share one CacheKey; starting from a cache without that key, the first
getOrExecute call misses (invoking compute once, fromCache = false) and the
second call with the permuted arguments hits the entry stored by the first
(fromCache = true, compute not invoked) returning the same value. -/
theorem cache_fingerprint_c4 {α : Type} (c0 : ResultCache α) (name : String)
    (a b : ArgValue) (compute : Unit → Except String α) (v : α)
    (hkpe : KeyPermEq a b)
    (hmiss : c0.entries.find? (fun e => e.key == (name, fingerprint a)) = none)
    (hcap : 1 ≤ c0.capacity) (hcompute : compute () = .ok v) :
    fingerprint a = fingerprint b ∧
    (getOrExecute c0 name a compute).1 = .ok v ∧
    (getOrExecute c0 name a compute).2.1 = false ∧
    (getOrExecute ((getOrExecute c0 name a compute).2.2) name b compute).1 =
      .ok v ∧
    (getOrExecute ((getOrExecute c0 name a compute).2.2) name b compute).2.1 =
      true := by
  have hfp := fingerprint_eq_of_kpe hkpe
  obtain ⟨cap, hcapeq⟩ : ∃ k, c0.capacity = k + 1 :=
    ⟨c0.capacity - 1, by omega⟩
  obtain ⟨h1, h2, h3⟩ := getOrExecute_miss c0 name a compute v hmiss hcompute
  have hc1 : (getOrExecute c0 name a compute).2.2.entries =
      { key := (name, fingerprint a), value := v, hitCount := 0 } ::
        c0.entries.take cap := by
    rw [h3, hcapeq, List.take_succ_cons]
  have hfind : ((getOrExecute c0 name a compute).2.2).entries.find?
      (fun e => e.key == (name, fingerprint b)) =
      some { key := (name, fingerprint a), value := v, hitCount := 0 } := by
    rw [hc1]
    apply List.find?_cons_of_pos
    simp [hfp]
  obtain ⟨h4, h5⟩ := getOrExecute_hit _ name b compute _ hfind
  exact ⟨hfp, h1, h2, h4, h5⟩

/-- Witness for C4: getOrExecute "x" on the object constructed as a = 1, b = 2
misses an empty cache and computes 42; getOrExecute "x" on the same object
constructed as b = 2, a = 1 hits the stored entry with the same value. -/
theorem cache_fingerprint_c4_witness :
    fingerprint argA = fingerprint argB ∧
    (getOrExecute cacheW "x" argA (fun _ => .ok 42)).1 = .ok 42 ∧
    (getOrExecute cacheW "x" argA (fun _ => .ok 42)).2.1 = false ∧
    (getOrExecute ((getOrExecute cacheW "x" argA (fun _ => .ok 42)).2.2) "x"
        argB (fun _ => .ok 42)).1 = .ok 42 ∧
    (getOrExecute ((getOrExecute cacheW "x" argA (fun _ => .ok 42)).2.2) "x"
        argB (fun _ => .ok 42)).2.1 = true :=
  cache_fingerprint_c4 cacheW "x" argA argB (fun _ => .ok 42) 42
    (KeyPermEq.obj (by decide)
      (KeyPermEqFields.cons (.num 1) (KeyPermEqFields.cons (.num 2)
        KeyPermEqFields.nil))
      (List.Perm.swap ("b", ArgValue.num 2) ("a", ArgValue.num 1) []))
    rfl (by decide) rfl

end Taskmaster
